import Mathlib

/-!
A shallow embedding of the data-processing pipeline of `consensus_app.py`
(the CONSENSUS repository): the fund-name deduplicator
(`filter_similar_funds`), the stock-appearance tally
(`process_stock_appearances`), and the post-fetch part of `get_funds` /
`load_data`.

Strings are Lean `String`s, dataframes of fund rows are `List FundRecord`,
and the counts dataframe (index `ticker`, column `Appearances`) is a
`List (String × Nat)`.  Network fetching is an external boundary: the pure
part of `get_funds` is modelled as a function of the already-assembled
`fund_data` list (the list built from the remote rows before the final
`pd.DataFrame(fund_data)` call).
-/

namespace Consensus

/-- Inner recursion of `lcs`: `lcsAux a f ys` is the longest-common-
subsequence length of `a :: as` and `ys` when `f` computes
`lcs as ·`.  Split off so that `lcs` is structurally recursive. -/
def lcsAux (a : Char) (f : List Char → Nat) : List Char → Nat
  | [] => 0
  | b :: bs => if a = b then f bs + 1 else max (lcsAux a f bs) (f (b :: bs))

/-- Longest common subsequence length of two character lists.  `fuzz.ratio`
computes `(len1 + len2 - dist) / (len1 + len2)` where `dist` is the
edit distance with substitutions costing 2; that distance equals
`len1 + len2 - 2 * lcs`, so the ratio is `2 * lcs / (len1 + len2)`. -/
def lcs : List Char → List Char → Nat
  | [], _ => 0
  | a :: as, ys => lcsAux a (lcs as) ys

theorem lcs_nil (ys : List Char) : lcs [] ys = 0 := rfl

theorem lcs_cons_nil (a : Char) (as : List Char) : lcs (a :: as) [] = 0 := rfl

/-- The textbook recurrence for `lcs`, recovered from the staged
definition. -/
theorem lcs_cons_cons (a b : Char) (as bs : List Char) :
    lcs (a :: as) (b :: bs) =
      if a = b then lcs as bs + 1
      else max (lcs (a :: as) bs) (lcs as (b :: bs)) := rfl

/-- `utils.intr` of fuzzywuzzy: `int(round(x))` with Python's
round-half-to-even, applied to the exact rational `num / den`. -/
def intr (num den : Nat) : Nat :=
  if 2 * (num % den) < den then num / den
  else if den < 2 * (num % den) then num / den + 1
  else if (num / den) % 2 = 0 then num / den else num / den + 1

/-- `fuzz.ratio` of fuzzywuzzy: equal strings score 100
(`check_for_equivalence`), an empty string against a different string
scores 0 (`check_empty_string`), otherwise the normalized edit-distance
ratio `2 * lcs / (len1 + len2)` scaled to [0, 100] and rounded. -/
def fuzzRatio (s1 s2 : String) : Nat :=
  if s1 = s2 then 100
  else if s1.length = 0 ∨ s2.length = 0 then 0
  else intr (200 * lcs s1.data s2.data) (s1.length + s2.length)

/-- One entry of the `fund_data` list built in `get_funds`:
`{'Id': …, 'Fund': …, 'Return10A': …, 'Stocks': …}`.  The return is a
number never used by the pipeline logic; it is modelled as a rational. -/
structure FundRecord where
  id : String
  fund : String
  return10A : Rat
  stocks : List String
deriving DecidableEq, Repr

/-- The `funds_to_keep` list of `filter_similar_funds`: for each position
`i` (in input order), the name `funds[i]` is appended iff no earlier name
`fund2 ∈ funds[:i]` — kept or dropped — satisfies
`fuzz.ratio(funds[i], fund2) > similarity_threshold`. -/
def fundsToKeep (funds : List String) (similarity_threshold : Nat) : List String :=
  (List.finRange funds.length).filterMap fun i =>
    if (funds.take i.1).all (fun fund2 => fuzzRatio (funds.get i) fund2 ≤ similarity_threshold)
    then some (funds.get i) else none

/-- `filter_similar_funds`: compute `funds_to_keep` from the `Fund` column,
then keep the rows whose name is in that list
(`funds_df[funds_df['Fund'].isin(funds_to_keep)]`). -/
def filter_similar_funds (funds_df : List FundRecord)
    (similarity_threshold : Nat := 85) : List FundRecord :=
  let funds := funds_df.map (·.fund)
  let funds_to_keep := fundsToKeep funds similarity_threshold
  funds_df.filter (fun r => r.fund ∈ funds_to_keep)

/-- The flattening `[stock for stocks in df['Stocks'] if stocks for stock
in stocks]` (the `if stocks` guard skips empty lists, which contribute
nothing to the flattening anyway). -/
def flattenStocks (df : List FundRecord) : List String :=
  ((df.map (·.stocks)).filter (fun stocks => !stocks.isEmpty)).flatMap id

/-- The distinct values of a list, first occurrence first — the index of
`pd.Series(...).value_counts()`.  `seen` accumulates the values already
emitted. -/
def distinctFirstAux (seen : List String) : List String → List String
  | [] => []
  | s :: rest =>
    if s ∈ seen then distinctFirstAux seen rest
    else s :: distinctFirstAux (seen ++ [s]) rest

/-- The distinct values of a list, first occurrence first. -/
def distinctFirst (l : List String) : List String := distinctFirstAux [] l

/-- Insert one `(ticker, count)` pair into a list sorted by count
descending, after every pair of count ≥ its own. -/
def insertByCountDesc (p : String × Nat) :
    List (String × Nat) → List (String × Nat)
  | [] => [p]
  | q :: rest => if q.2 < p.2 then p :: q :: rest else q :: insertByCountDesc p rest

/-- Sort `(ticker, count)` pairs by count descending (insertion sort,
stable on ties; pandas leaves the tie order to its sort implementation). -/
def sortByCountDesc : List (String × Nat) → List (String × Nat)
  | [] => []
  | p :: rest => insertByCountDesc p (sortByCountDesc rest)

/-- `pd.Series(stocks).value_counts().to_frame('Appearances')`: each
distinct value paired with its number of occurrences, sorted by count
descending. -/
def valueCounts (stocks : List String) : List (String × Nat) :=
  sortByCountDesc ((distinctFirst stocks).map (fun s => (s, stocks.count s)))

/-- `if 'GOOG' in stock_counts.index: stock_counts =
stock_counts.drop('GOOG')`: remove the denylisted ticker when present. -/
def dropGoog (stock_counts : List (String × Nat)) : List (String × Nat) :=
  if stock_counts.any (fun p => p.1 = "GOOG")
  then stock_counts.filter (fun p => ¬ p.1 = "GOOG")
  else stock_counts

/-- `process_stock_appearances`: flatten the stock lists, count
occurrences, drop the denylisted ticker `'GOOG'` when present, and keep the
tickers whose count is at least `min_appearances` (default 4). -/
def process_stock_appearances (df : List FundRecord)
    (min_appearances : Nat := 4) : List (String × Nat) :=
  let stocks := flattenStocks df
  let stock_counts := dropGoog (valueCounts stocks)
  stock_counts.filter (fun p => min_appearances ≤ p.2)

/-- The pure tail of `get_funds`: after the remote fetches have assembled
`fund_data`, return an empty result when the list is empty, otherwise
`process_stock_appearances(filter_similar_funds(df_funds))` — both calls
with their built-in defaults (85 and 4). -/
def get_funds (fund_data : List FundRecord) : List (String × Nat) :=
  if fund_data.isEmpty then []
  else process_stock_appearances (filter_similar_funds fund_data)

/-- `MIN_APPEARANCES` of the app configuration. -/
def MIN_APPEARANCES : Nat := 6

/-- `SIMILARITY_THRESHOLD` of the app configuration. -/
def SIMILARITY_THRESHOLD : Nat := 85

/-- `load_data(min_appearances, similarity_threshold, headers)`: calls
`get_funds(headers)` — passing neither tunable — and returns an empty
frame when the result is empty.  The remote data reachable through
`headers` is modelled as the assembled `fund_data` list. -/
def load_data (min_appearances similarity_threshold : Nat)
    (fund_data : List FundRecord) : List (String × Nat) :=
  let df := get_funds fund_data
  if df.isEmpty then [] else df

theorem lcs_le_left (x y : List Char) : lcs x y ≤ x.length := by
  induction x generalizing y with
  | nil => simp [lcs_nil]
  | cons a as ih =>
    induction y with
    | nil => simp [lcs_cons_nil]
    | cons b bs ihy =>
      rw [lcs_cons_cons]
      by_cases hab : a = b
      · rw [if_pos hab]
        have := ih bs
        simp only [List.length_cons]
        omega
      · rw [if_neg hab]
        refine max_le ihy (le_trans (ih (b :: bs)) ?_)
        simp

theorem lcs_le_right (x y : List Char) : lcs x y ≤ y.length := by
  induction x generalizing y with
  | nil => simp [lcs_nil]
  | cons a as ih =>
    induction y with
    | nil => simp [lcs_cons_nil]
    | cons b bs ihy =>
      rw [lcs_cons_cons]
      by_cases hab : a = b
      · rw [if_pos hab]
        have := ih bs
        simp only [List.length_cons]
        omega
      · rw [if_neg hab]
        refine max_le (le_trans ihy ?_) (ih (b :: bs))
        simp

theorem lcs_comm (x y : List Char) : lcs x y = lcs y x := by
  induction x generalizing y with
  | nil => cases y <;> simp [lcs_nil, lcs_cons_nil]
  | cons a as ih =>
    induction y with
    | nil => simp [lcs_nil, lcs_cons_nil]
    | cons b bs ihy =>
      rw [lcs_cons_cons, lcs_cons_cons]
      by_cases hab : a = b
      · subst hab
        rw [if_pos rfl, if_pos rfl, ih bs]
      · have hba : ¬ b = a := fun h => hab h.symm
        rw [if_neg hab, if_neg hba, ihy, ih (b :: bs), Nat.max_comm]

theorem intr_le_100 {num den : Nat} (h : num ≤ 100 * den) : intr num den ≤ 100 := by
  rcases Nat.eq_zero_or_pos den with hd | hd
  · subst hd
    have hnum : num = 0 := by omega
    subst hnum
    simp [intr]
  · have hq : num / den ≤ 100 := by
      calc num / den ≤ 100 * den / den := Nat.div_le_div_right h
        _ = 100 := Nat.mul_div_cancel 100 hd
    unfold intr
    split_ifs with h1 h2 h3
    · exact hq
    · by_cases hq100 : num / den = 100
      · exfalso
        have hmod := Nat.div_add_mod num den
        rw [hq100] at hmod
        omega
      · omega
    · exact hq
    · by_cases hq100 : num / den = 100
      · exfalso
        have hmod := Nat.div_add_mod num den
        rw [hq100] at hmod
        omega
      · omega

theorem string_length_eq_data (s : String) : s.length = s.data.length := rfl

theorem fuzzRatio_le_100 (s1 s2 : String) : fuzzRatio s1 s2 ≤ 100 := by
  unfold fuzzRatio
  split_ifs with h1 h2
  · exact le_refl 100
  · exact Nat.zero_le 100
  · apply intr_le_100
    have h3 := lcs_le_left s1.data s2.data
    have h4 := lcs_le_right s1.data s2.data
    rw [string_length_eq_data, string_length_eq_data]
    omega

theorem fuzzRatio_comm (s1 s2 : String) : fuzzRatio s1 s2 = fuzzRatio s2 s1 := by
  unfold fuzzRatio
  by_cases h1 : s1 = s2
  · subst h1
    rfl
  · have h1' : ¬ s2 = s1 := fun h => h1 h.symm
    rw [if_neg h1, if_neg h1']
    by_cases h2 : s1.length = 0 ∨ s2.length = 0
    · rw [if_pos h2, if_pos (Or.symm h2)]
    · rw [if_neg h2, if_neg (fun hc => h2 (Or.symm hc))]
      rw [lcs_comm, Nat.add_comm]

/-- A name is in `funds_to_keep` iff it sits at some position `i` whose
comparisons against every name of `funds[:i]` all stay at or below the
threshold. -/
theorem mem_fundsToKeep {funds : List String} {t : Nat} {a : String} :
    a ∈ fundsToKeep funds t ↔
      ∃ i : Fin funds.length, funds.get i = a ∧
        ∀ fund2 ∈ funds.take i.1, fuzzRatio (funds.get i) fund2 ≤ t := by
  unfold fundsToKeep
  rw [List.mem_filterMap]
  constructor
  · rintro ⟨i, -, hi⟩
    rcases Decidable.em
        (((funds.take i.1).all fun fund2 =>
          decide (fuzzRatio (funds.get i) fund2 ≤ t)) = true) with hc | hc
    · rw [if_pos hc] at hi
      injection hi with hget
      refine ⟨i, hget, ?_⟩
      intro fund2 hf2
      exact of_decide_eq_true (List.all_eq_true.mp hc fund2 hf2)
    · rw [if_neg hc] at hi
      exact Option.noConfusion hi
  · rintro ⟨i, hget, hall⟩
    refine ⟨i, List.mem_finRange i, ?_⟩
    have hc : ((funds.take i.1).all fun fund2 =>
        decide (fuzzRatio (funds.get i) fund2 ≤ t)) = true := by
      apply List.all_eq_true.mpr
      intro fund2 hf2
      exact decide_eq_true (hall fund2 hf2)
    rw [if_pos hc, hget]

/-- A row survives `filter_similar_funds` iff it is an input row whose
name is in the computed `funds_to_keep` list. -/
theorem mem_filter_similar_funds {funds_df : List FundRecord} {t : Nat}
    {r : FundRecord} :
    r ∈ filter_similar_funds funds_df t ↔
      r ∈ funds_df ∧ r.fund ∈ fundsToKeep (funds_df.map (·.fund)) t := by
  unfold filter_similar_funds
  rw [List.mem_filter]
  simp only [decide_eq_true_eq]

theorem mem_of_mem_distinctFirstAux {x : String} :
    ∀ (seen l : List String), x ∈ distinctFirstAux seen l → x ∈ l := by
  intro seen l
  induction l generalizing seen with
  | nil => intro h; exact absurd h (List.not_mem_nil x)
  | cons s rest ih =>
    intro h
    unfold distinctFirstAux at h
    split_ifs at h with hs
    · exact List.mem_cons_of_mem s (ih _ h)
    · rcases List.mem_cons.mp h with h1 | h1
      · exact h1 ▸ List.mem_cons_self s rest
      · exact List.mem_cons_of_mem s (ih _ h1)

theorem mem_insertByCountDesc {p q : String × Nat} :
    ∀ {l : List (String × Nat)}, q ∈ insertByCountDesc p l ↔ q = p ∨ q ∈ l := by
  intro l
  induction l with
  | nil => simp [insertByCountDesc]
  | cons a rest ih =>
    unfold insertByCountDesc
    split_ifs with h
    · rw [List.mem_cons, List.mem_cons]
    · rw [List.mem_cons, ih, List.mem_cons]
      tauto

theorem mem_sortByCountDesc {q : String × Nat} :
    ∀ {l : List (String × Nat)}, q ∈ sortByCountDesc l ↔ q ∈ l := by
  intro l
  induction l with
  | nil => simp [sortByCountDesc]
  | cons a rest ih =>
    unfold sortByCountDesc
    rw [mem_insertByCountDesc, ih, List.mem_cons]

/-- Every row of `value_counts` pairs a value occurring in the input with
its exact occurrence count. -/
theorem mem_valueCounts {stocks : List String} {p : String × Nat}
    (h : p ∈ valueCounts stocks) :
    p.1 ∈ stocks ∧ p.2 = stocks.count p.1 := by
  unfold valueCounts at h
  rw [mem_sortByCountDesc, List.mem_map] at h
  obtain ⟨s, hs, hps⟩ := h
  cases hps
  exact ⟨mem_of_mem_distinctFirstAux [] stocks hs, rfl⟩

theorem mem_dropGoog {counts : List (String × Nat)} {p : String × Nat} :
    p ∈ dropGoog counts ↔ p ∈ counts ∧ p.1 ≠ "GOOG" := by
  unfold dropGoog
  split_ifs with hg
  · rw [List.mem_filter]
    simp only [decide_not, Bool.not_eq_eq_eq_not, Bool.not_true,
      decide_eq_false_iff_not]
  · constructor
    · intro hp
      refine ⟨hp, ?_⟩
      intro hGoog
      rw [Bool.not_eq_true, List.any_eq_false] at hg
      exact absurd (decide_eq_true hGoog) (by simpa using hg p hp)
    · exact fun h => h.1

/-- Every row of `process_stock_appearances` carries a ticker of the
flattened stock list, its exact occurrence count, is not the denylisted
ticker, and meets the minimum-appearance bound. -/
theorem mem_process_stock_appearances {df : List FundRecord}
    {min_appearances : Nat} {p : String × Nat}
    (h : p ∈ process_stock_appearances df min_appearances) :
    p.1 ∈ flattenStocks df ∧ p.2 = (flattenStocks df).count p.1 ∧
      p.1 ≠ "GOOG" ∧ min_appearances ≤ p.2 := by
  unfold process_stock_appearances at h
  rw [List.mem_filter] at h
  obtain ⟨h1, h2⟩ := h
  rw [mem_dropGoog] at h1
  obtain ⟨hcv, hne⟩ := h1
  obtain ⟨hmem, hcount⟩ := mem_valueCounts hcv
  exact ⟨hmem, hcount, hne, of_decide_eq_true h2⟩

/-! Concrete fund rows used by counterexamples and witnesses. -/

def recA : FundRecord := ⟨"1", "aaa", 0, ["AAPL"]⟩

def recB : FundRecord := ⟨"2", "aab", 0, ["MSFT"]⟩

def recC : FundRecord := ⟨"3", "abb", 0, ["NVDA"]⟩

def recD : FundRecord := ⟨"1", "Alpha", 0, ["AAPL"]⟩

def recE : FundRecord := ⟨"2", "Alpha", 0, ["MSFT"]⟩

def recF : FundRecord := ⟨"1", "aa", 0, []⟩

def recG : FundRecord := ⟨"2", "bz", 0, []⟩

def recH : FundRecord := ⟨"1", "a", 0, []⟩

def recI : FundRecord := ⟨"2", "b", 0, []⟩

def recJ : FundRecord := ⟨"1", "a", 0, ["AAPL", "GOOG"]⟩

def recK : FundRecord := ⟨"1", "a", 0, ["AAPL"]⟩

/-- Four funds with pairwise-dissimilar names, each holding `AAPL`, so
the ticker appears exactly 4 times. -/
def c2Funds : List FundRecord :=
  [⟨"1", "a", 0, ["AAPL"]⟩, ⟨"2", "b", 0, ["AAPL"]⟩,
   ⟨"3", "c", 0, ["AAPL"]⟩, ⟨"4", "d", 0, ["AAPL"]⟩]

/-- C1 is false as stated: with names `aaa`, `aab`, `abb` and threshold 66,
the similarity of `aab` with `aaa` and of `abb` with `aab` is 67, while
that of `abb` with `aaa` is only 33.  The record named `abb` is dropped
although its score with the only kept record (`aaa`) is below the
threshold — the comparison against the previously dropped `aab` decided
its fate. -/
theorem claim_C1_counterexample :
    filter_similar_funds [recA, recB, recC] 66 = [recA] ∧
    recC ∈ [recA, recB, recC] ∧
    recC ∉ filter_similar_funds [recA, recB, recC] 66 ∧
    fuzzRatio recC.fund recA.fund ≤ 66 := by decide

/-- C1 (amended): the deduplicator compares each candidate's name against
the names of ALL earlier records — previously dropped names participate
too.  A record is in the output iff it is an input row whose name stands
at some position `i` whose similarity with every name before position `i`
is at most the threshold. -/
theorem claim_C1_drop_decision (funds_df : List FundRecord) (t : Nat)
    (r : FundRecord) :
    r ∈ filter_similar_funds funds_df t ↔
      r ∈ funds_df ∧
        ∃ i : Fin (funds_df.map (·.fund)).length,
          (funds_df.map (·.fund)).get i = r.fund ∧
          ∀ fund2 ∈ (funds_df.map (·.fund)).take i.1,
            fuzzRatio ((funds_df.map (·.fund)).get i) fund2 ≤ t := by
  rw [mem_filter_similar_funds, mem_fundsToKeep]

/-- C2: the code is wrong.  The app defines `MIN_APPEARANCES = 6` and
passes it to `load_data`, but `load_data` never forwards it; the pipeline
runs with the built-in default 4, so a ticker appearing only 4 times is
displayed. -/
theorem claim_C2_effective_threshold_is_4 :
    load_data MIN_APPEARANCES SIMILARITY_THRESHOLD c2Funds = [("AAPL", 4)] ∧
    4 < MIN_APPEARANCES := by decide

/-- C3 is false as stated: two distinct records sharing the exact name
`Alpha` are both kept at threshold 85, because `funds_to_keep` holds names
and the final `isin` keeps every row bearing a kept name; their mutual
similarity is 100 > 85. -/
theorem claim_C3_counterexample :
    filter_similar_funds [recD, recE] 85 = [recD, recE] ∧
    recD ≠ recE ∧ 85 < fuzzRatio recD.fund recE.fund := by decide

/-- C3 (amended): every pair of kept records with DISTINCT names has
similarity score at most the threshold. -/
theorem claim_C3_kept_pairs (funds_df : List FundRecord) (t : Nat)
    (r1 r2 : FundRecord)
    (h1 : r1 ∈ filter_similar_funds funds_df t)
    (h2 : r2 ∈ filter_similar_funds funds_df t)
    (hne : r1.fund ≠ r2.fund) :
    fuzzRatio r1.fund r2.fund ≤ t := by
  rw [mem_filter_similar_funds, mem_fundsToKeep] at h1 h2
  obtain ⟨-, i1, hget1, hall1⟩ := h1
  obtain ⟨-, i2, hget2, hall2⟩ := h2
  rcases Nat.lt_trichotomy i1.1 i2.1 with hlt | heq | hgt
  · have hlen : i1.1 < ((funds_df.map (·.fund)).take i2.1).length := by
      rw [List.length_take]
      exact lt_min hlt i1.2
    have hmem : r1.fund ∈ (funds_df.map (·.fund)).take i2.1 := by
      rw [← hget1, List.get_eq_getElem]
      have hEq := List.getElem_take (funds_df.map (·.fund)) (h := hlen)
      rw [← hEq]
      exact List.getElem_mem hlen
    have hle := hall2 r1.fund hmem
    rw [hget2] at hle
    rw [fuzzRatio_comm]
    exact hle
  · exact absurd (by rw [← hget1, ← hget2]
                     exact congrArg _ (Fin.ext heq)) hne
  · have hlen : i2.1 < ((funds_df.map (·.fund)).take i1.1).length := by
      rw [List.length_take]
      exact lt_min hgt i2.2
    have hmem : r2.fund ∈ (funds_df.map (·.fund)).take i1.1 := by
      rw [← hget2, List.get_eq_getElem]
      have hEq := List.getElem_take (funds_df.map (·.fund)) (h := hlen)
      rw [← hEq]
      exact List.getElem_mem hlen
    have hle := hall1 r2.fund hmem
    rw [hget1] at hle
    exact hle

/-- Witness for C3 (amended): two dissimilar names both kept at threshold
85; their score is 0 ≤ 85. -/
theorem claim_C3_witness : fuzzRatio "aa" "bz" ≤ 85 :=
  claim_C3_kept_pairs [recF, recG] 85 recF recG (by decide) (by decide)
    (by decide)

/-- C4 is false as stated: the comparison is strict (`> threshold`), and
scores never exceed 100, so at threshold 100 nothing is dropped — in
particular an exact duplicate name survives. -/
theorem claim_C4_counterexample :
    filter_similar_funds [recD, recE] 100 = [recD, recE] ∧
    recD.fund = recE.fund := by decide

/-- C4 (amended): at threshold 100 the deduplicator removes nothing: the
output equals the input, exact duplicates included. -/
theorem claim_C4_threshold100 (funds_df : List FundRecord) :
    filter_similar_funds funds_df 100 = funds_df := by
  unfold filter_similar_funds
  apply List.filter_eq_self.mpr
  intro r hr
  apply decide_eq_true
  rw [mem_fundsToKeep]
  have hmem : r.fund ∈ funds_df.map (·.fund) := List.mem_map_of_mem _ hr
  obtain ⟨i, hi⟩ := List.get_of_mem hmem
  exact ⟨i, hi, fun fund2 _ => fuzzRatio_le_100 _ fund2⟩

/-- C5 is false as stated: at threshold 0 a later record is dropped only
when its score with an earlier name is strictly positive; names with no
characters in common score 0, so two such records both survive. -/
theorem claim_C5_counterexample :
    filter_similar_funds [recH, recI] 0 = [recH, recI] ∧
    2 ≤ (filter_similar_funds [recH, recI] 0).length := by decide

/-- C5 (amended): at threshold 0 the deduplicator keeps at least one
record of any non-empty input (the first record always survives); it may
keep more. -/
theorem claim_C5_threshold0_nonempty (funds_df : List FundRecord)
    (h : funds_df ≠ []) : filter_similar_funds funds_df 0 ≠ [] := by
  cases funds_df with
  | nil => exact absurd rfl h
  | cons r rest =>
    intro hout
    have hr : r ∈ filter_similar_funds (r :: rest) 0 := by
      rw [mem_filter_similar_funds]
      refine ⟨List.mem_cons_self r rest, ?_⟩
      rw [mem_fundsToKeep]
      refine ⟨⟨0, by simp⟩, rfl, ?_⟩
      intro fund2 hf2
      simp at hf2
    rw [hout] at hr
    exact List.not_mem_nil r hr

/-- Witness for C5 (amended) at a one-record input. -/
theorem claim_C5_witness : filter_similar_funds [recH] 0 ≠ [] :=
  claim_C5_threshold0_nonempty [recH] (by decide)

/-- C6: the deduplicator's output is a sublist of its input — every output
record occurs in the input in unchanged relative order — and the empty
input yields the empty output. -/
theorem claim_C6_sublist (funds_df : List FundRecord) (t : Nat) :
    (filter_similar_funds funds_df t).Sublist funds_df ∧
    filter_similar_funds ([] : List FundRecord) t = [] := by
  constructor
  · unfold filter_similar_funds
    exact List.filter_sublist _
  · rfl

/-- C7: the denylisted ticker `GOOG` never appears as a key of the tally
output, whatever the input records and however often it occurs in them. -/
theorem claim_C7_never_goog (df : List FundRecord) (min_appearances : Nat)
    (p : String × Nat) (hp : p ∈ process_stock_appearances df min_appearances) :
    p.1 ≠ "GOOG" :=
  (mem_process_stock_appearances hp).2.2.1

/-- Witness for C7: an input that does hold `GOOG` (once, below no
threshold) yields a tally whose only key is `AAPL`. -/
theorem claim_C7_witness : "AAPL" ≠ "GOOG" :=
  claim_C7_never_goog [recJ] 1 ("AAPL", 1) (by decide)

/-- C8: every ticker in the tally output carries its exact appearance
count over the flattened stock lists, and that count is at least
`min_appearances`. -/
theorem claim_C8_min_appearances (df : List FundRecord)
    (min_appearances : Nat) (p : String × Nat)
    (hp : p ∈ process_stock_appearances df min_appearances) :
    p.2 = (flattenStocks df).count p.1 ∧ min_appearances ≤ p.2 :=
  ⟨(mem_process_stock_appearances hp).2.1,
   (mem_process_stock_appearances hp).2.2.2⟩

/-- Witness for C8 at a concrete one-fund input. -/
theorem claim_C8_witness :
    (1 : Nat) = (flattenStocks [recJ]).count "AAPL" ∧ (1 : Nat) ≤ 1 :=
  claim_C8_min_appearances [recJ] 1 ("AAPL", 1) (by decide)

/-- C9: when every ticker of the flattened input is denylisted or counts
below the minimum, the tally is the empty mapping — returned as an
ordinary value of the (total) function, not an exception. -/
theorem claim_C9_empty_result (df : List FundRecord) (min_appearances : Nat)
    (h : ∀ s ∈ flattenStocks df,
      s = "GOOG" ∨ (flattenStocks df).count s < min_appearances) :
    process_stock_appearances df min_appearances = [] := by
  unfold process_stock_appearances
  apply List.filter_eq_nil_iff.mpr
  intro p hp
  rw [mem_dropGoog] at hp
  obtain ⟨hcv, hne⟩ := hp
  obtain ⟨hmem, hcount⟩ := mem_valueCounts hcv
  rcases h p.1 hmem with hGoog | hlt
  · exact absurd hGoog hne
  · simp only [decide_eq_true_eq]
    omega

/-- Witness for C9: a single fund holding `AAPL` once, with minimum 2. -/
theorem claim_C9_witness : process_stock_appearances [recK] 2 = [] :=
  claim_C9_empty_result [recK] 2 (by decide)

/-- C10: `load_data` ignores its `min_appearances` and
`similarity_threshold` arguments — `get_funds` is called without them, so
the result is identical for any two argument pairs over the same data. -/
theorem claim_C10_args_ignored (m1 s1 m2 s2 : Nat)
    (fund_data : List FundRecord) :
    load_data m1 s1 fund_data = load_data m2 s2 fund_data := rfl

end Consensus
